import Mathlib

/-!
Verification of the sweeney-calendar-aggregator core pipeline.

The definitions below are a shallow embedding of the multi-calendar
aggregation server (`src/server.js`, and the `/wall` endpoint variant in
the related source file): event normalization, the settle-all fan-in over
per-calendar fetch outcomes, the merge-and-sort of normalized events, and
the today/upcoming wall partition.

JavaScript conventions embedded explicitly:
* an optional string field is `Option String`; JS truthiness on strings
  (`undefined`, `null` and `""` are falsy) is the `truthy` predicate;
* `a || b` on optional strings is `jsOr`, `a || "default"` is `jsOrStr`;
* `Promise.allSettled` resolves to an array aligned with its input array
  (request order), regardless of completion timing; each settlement is an
  `Except String _` (rejected with a reason message, or fulfilled);
* `Array.prototype.sort` with the comparator
  `(a.start || "").localeCompare(b.start || "")` is a stable sort by the
  string key `start || ""`; for the ASCII ISO-8601 strings involved,
  `localeCompare` agrees with code-point lexicographic order, embedded as
  the boolean comparison `strLe` (`sortByKey` is a stable insertion sort).

Luxon (`DateTime`) is an external collaborator: its parse/format
operations enter as function parameters (`fmtHM` for
`fromISO(s, zone).toFormat("h:mm a")`, `toDateKey` for
`fromISO(s, zone).toISODate()`), each returning `none` where luxon
reports an invalid DateTime, and day arithmetic is `plusDays` on
epoch-second instants.
-/

/-- JS string truthiness: `undefined`/absent and `""` are falsy. -/
def truthy : Option String → Bool
  | some s => s != ""
  | none => false

/-- JS `a || b` on two optional string expressions. -/
def jsOr (a b : Option String) : Option String :=
  if truthy a then a else b

/-- JS `a || d` where `d` is a (truthy) string literal fallback. -/
def jsOrStr (a : Option String) (d : String) : String :=
  match a with
  | some s => if s == "" then d else s
  | none => d

/-- Lexicographic (code-point) order on character lists, the order
`localeCompare` induces on the ASCII ISO-8601 strings this program
compares. -/
def leChars : List Char → List Char → Bool
  | [], _ => true
  | _ :: _, [] => false
  | a :: as, b :: bs =>
    if a.toNat < b.toNat then true
    else if b.toNat < a.toNat then false
    else leChars as bs

/-- `a.localeCompare(b) <= 0` for the strings this program sorts:
lexicographic code-point comparison. -/
def strLe (a b : String) : Bool :=
  leChars a.data b.data

/-- The provider-native nested start/end record: `{ dateTime?, date? }`. -/
structure RawTime where
  dateTime : Option String
  date : Option String
deriving DecidableEq

/-- Provider-native event record (the fields the handlers read). -/
structure RawEvent where
  id : String
  summary : Option String
  location : Option String
  description : Option String
  start : Option RawTime
  «end» : Option RawTime
deriving DecidableEq

/-- Canonical normalized event produced by the `/events` handler. -/
structure Event where
  sourceCalendarId : String
  id : String
  title : String
  location : String
  description : String
  allDay : Bool
  start : Option String
  «end» : Option String
deriving DecidableEq

/-- Per-event normalization map in `GET /events` (src/server.js:72-86):
start/end pick `e.start?.dateTime || e.start?.date`, `allDay` is
`Boolean(e.start?.date)`, `title` is `e.summary || "(no title)"`,
`location`/`description` default to `""`, and the canonical id is the
template string `calendarId ++ ":" ++ e.id`. -/
def normalizeEvent (calendarId : String) (e : RawEvent) : Event :=
  { sourceCalendarId := calendarId
    id := calendarId ++ ":" ++ e.id
    title := jsOrStr e.summary "(no title)"
    location := jsOrStr e.location ""
    description := jsOrStr e.description ""
    allDay := truthy (e.start.bind RawTime.date)
    start := jsOr (e.start.bind RawTime.dateTime) (e.start.bind RawTime.date)
    «end» := jsOr (e.«end».bind RawTime.dateTime) (e.«end».bind RawTime.date) }

/-- `r.status === "rejected"` on a settled outcome. -/
def isRejected : Except String α → Bool
  | .error _ => true
  | .ok _ => false

/-- `settled.filter(r => r.status === "rejected").map(r =>
String(r.reason?.message || r.reason || "unknown error"))`
(src/server.js:92-94), with the rejection reason modelled by its
message string. -/
def settledErrors (settled : List (Except String α)) : List String :=
  settled.filterMap fun r =>
    match r with
    | .error m => some (jsOrStr (some m) "unknown error")
    | .ok _ => none

/-- `settled.filter(r => r.status === "fulfilled").map(r => r.value)`
(src/server.js:96-98). -/
def settledFulfilled (settled : List (Except String α)) : List α :=
  settled.filterMap fun r =>
    match r with
    | .error _ => none
    | .ok v => some v

/-- Stable insertion into a key-sorted list: the new element goes before
the first strictly larger key, after equal keys already present. -/
def insertByKey (key : α → String) (a : α) : List α → List α
  | [] => [a]
  | b :: bs => if strLe (key a) (key b) then a :: b :: bs else b :: insertByKey key a bs

/-- `Array.prototype.sort` with the comparator
`(a.start || "").localeCompare(b.start || "")` (src/server.js:100-102):
a stable sort ascending by a string key, embedded as stable insertion
sort under `strLe`. -/
def sortByKey (key : α → String) : List α → List α
  | [] => []
  | a :: rest => insertByKey key a (sortByKey key rest)

/-- The sort key `a.start || ""` of a canonical event. -/
def sortKey (e : Event) : String :=
  jsOrStr e.start ""

/-- One per-calendar task of the `GET /events` fan-out
(src/server.js:61-89): the calendar fetch either rejects with a reason
message, or fulfills with `{ calendarId, events }` where every returned
raw item is normalized with this calendar's id. -/
def fetchTask (fetchRaw : String → Except String (List RawEvent))
    (calendarId : String) : Except String (String × List Event) :=
  (fetchRaw calendarId).map fun items => (calendarId, items.map (normalizeEvent calendarId))

/-- The response body assembled by `GET /events` (src/server.js:104-112),
restricted to the aggregation fields the spec's AggregationResult names. -/
structure AggregationResult where
  calendarsRequested : List String
  calendarsSucceeded : List String
  errors : List String
  events : List Event
deriving DecidableEq

/-- The `GET /events` aggregation (src/server.js:60-112): settle all
per-calendar tasks (`Promise.allSettled` yields the outcomes aligned
with `calendarIds`, whatever the completion timing), split rejections
into `errors` and fulfillments into successes, merge the successful
event lists and sort by `(start || "")`. -/
def aggregate (calendarIds : List String)
    (fetchRaw : String → Except String (List RawEvent)) : AggregationResult :=
  let settled := calendarIds.map (fetchTask fetchRaw)
  let errors := settledErrors settled
  let fulfilled := settledFulfilled settled
  let events := sortByKey sortKey (fulfilled.flatMap fun x => x.2)
  { calendarsRequested := calendarIds
    calendarsSucceeded := fulfilled.map fun f => f.1
    errors := errors
    events := events }

/-- Wall-view event shape built by `GET /wall` (related source,
lines 248-262): like the canonical event but with `displayTime` and
without location/description. -/
structure WallEvent where
  sourceCalendarId : String
  id : String
  title : String
  allDay : Bool
  start : Option String
  «end» : Option String
  displayTime : String
deriving DecidableEq

/-- `formatEventTime` (related source, lines 218-222): `"All day"` for
all-day events, else the luxon-formatted local time when
`DateTime.fromISO(startIso, { zone: TZ })` is valid, else `""`.
`fmtHM` abstracts luxon: `fmtHM s = some t` when `fromISO` on `s` is
valid and formats to `t` under `"h:mm a"`, `none` when invalid (also for
an absent `s`, since `fromISO(undefined)` is invalid). Total: every
branch returns a string. -/
def formatEventTime (fmtHM : Option String → Option String)
    (startIso : Option String) (allDay : Bool) : String :=
  if allDay then "All day"
  else
    match fmtHM startIso with
    | some t => t
    | none => ""

/-- Per-event normalization in `GET /wall` (related source, lines
248-262): same field selection as `/events`, plus `displayTime`
computed by `formatEventTime`. -/
def normalizeWall (fmtHM : Option String → Option String)
    (calendarId : String) (e : RawEvent) : WallEvent :=
  let start := jsOr (e.start.bind RawTime.dateTime) (e.start.bind RawTime.date)
  let endv := jsOr (e.«end».bind RawTime.dateTime) (e.«end».bind RawTime.date)
  let allDay := truthy (e.start.bind RawTime.date)
  { sourceCalendarId := calendarId
    id := calendarId ++ ":" ++ e.id
    title := jsOrStr e.summary "(no title)"
    allDay := allDay
    start := start
    «end» := endv
    displayTime := formatEventTime fmtHM start allDay }

/-- The sort key `a.start || ""` of a wall event. -/
def wallSortKey (e : WallEvent) : String :=
  jsOrStr e.start ""

/-- The today/upcoming partition loop of `GET /wall` (related source,
lines 275-284): per event, `startKey` is
`fromISO(e.start, zone).isValid ? toISODate() : ""`, and the event is
pushed onto `today` when `startKey === todayKey`, else onto `upcoming`.
`toDateKey` abstracts luxon's parse-to-calendar-date: `some d` (the
ISO calendar date in the configured zone) when `fromISO` is valid,
`none` when invalid or the input is absent. -/
def partitionWall (toDateKey : Option String → Option String)
    (todayKey : String) : List WallEvent → List WallEvent × List WallEvent
  | [] => ([], [])
  | e :: rest =>
    if (toDateKey e.start).getD "" = todayKey then
      (e :: (partitionWall toDateKey todayKey rest).1,
        (partitionWall toDateKey todayKey rest).2)
    else
      ((partitionWall toDateKey todayKey rest).1,
        e :: (partitionWall toDateKey todayKey rest).2)

/-- `Math.min(parseInt(req.query.days || dflt, 10), cap)` with the
query parameter modelled as an optional integer (absent query → the
default string, which parses to `dflt`). -/
def clampDays (q : Option Int) (dflt cap : Int) : Int :=
  min (q.getD dflt) cap

/-- The `days` computation of `GET /events` (src/server.js:50):
default `"30"`, cap 365. -/
def daysFlat (q : Option Int) : Int :=
  clampDays q 30 365

/-- The `days` computation of `GET /wall` (related source, line 226):
default `"10"`, cap 60. -/
def daysWall (q : Option Int) : Int :=
  clampDays q 10 60

/-- Modelled from the spec: luxon `now.plus({ days })` on an instant —
an external collaborator of the core — with instants as epoch seconds;
DST wobble of calendar-day arithmetic is abstracted, only the sign and
ordering of the offset matter for the claims stated here. -/
def plusDays (now d : Int) : Int :=
  now + d * 86400

/-- `timeMin = now.toUTC().toISO(); timeMax = now.plus({ days
}).toUTC().toISO()` (src/server.js:52-53), as a pair of instants. -/
def timeRange (now d : Int) : Int × Int :=
  (now, plusDays now d)

/-- Modelled from the spec: the spec describes `errors` as listed "in
completion order"; given the settled outcomes (which
`Promise.allSettled` delivers aligned with the request order) and a
completion schedule — the order in which the concurrent fetches
finished, as a permutation of task indices — this lists the failure
messages in that completion order, for comparison with what the code
returns. -/
def errorsInCompletionOrder (settled : List (Except String α))
    (completion : List Nat) : List String :=
  completion.filterMap fun i =>
    match settled[i]? with
    | some (Except.error m) => some (jsOrStr (some m) "unknown error")
    | some (Except.ok _) => none
    | none => none

/-- The calendars that succeeded, in request order: spec-side
description of `calendarsSucceeded` used to state the aggregation
claims. -/
def succeededCalendars (calendarIds : List String)
    (fetchRaw : String → Except String (List RawEvent)) : List String :=
  calendarIds.filter fun c => !(isRejected (fetchRaw c))

/-- The items of a fulfilled fetch (a rejected fetch contributes no
events). -/
def okItems : Except String (List RawEvent) → List RawEvent
  | .ok items => items
  | .error _ => []

/-- Spec-side description of the merged output: every normalized event
of every succeeded calendar, once per occurrence, in request order. -/
def succeededEvents (calendarIds : List String)
    (fetchRaw : String → Except String (List RawEvent)) : List Event :=
  (succeededCalendars calendarIds fetchRaw).flatMap fun c =>
    (okItems (fetchRaw c)).map (normalizeEvent c)

/-- A timed raw event fixture: `start.dateTime` set, no `start.date`. -/
def rawTimed : RawEvent :=
  ⟨"e1", some "Standup", none, none, some ⟨some "2024-03-01T09:00:00Z", none⟩, none⟩

/-- An all-day raw event fixture: `start.date` set, no `start.dateTime`. -/
def rawAllDay : RawEvent :=
  ⟨"e2", none, none, none, some ⟨none, some "2024-03-01"⟩, none⟩

/-- A raw event fixture with no start at all. -/
def rawBare : RawEvent :=
  ⟨"e3", none, none, none, none, none⟩

/-- Fetch outcome fixture: calendar "A" rejects, every other id fulfills
with one timed event. -/
def fetchAB : String → Except String (List RawEvent) := fun c =>
  if c = "A" then Except.error "boom" else Except.ok [rawTimed]

/-- Fetch outcome fixture: every calendar rejects, "A" with "errA" and
the others with "errB". -/
def fetchBothFail : String → Except String (List RawEvent) := fun c =>
  if c = "A" then Except.error "errA" else Except.error "errB"

/-- Concrete stand-in for luxon's parse-and-format: valid only on the
fixture timestamp. -/
def fmtFix : Option String → Option String := fun s =>
  match s with
  | some "2024-03-01T09:00:00Z" => some "4:00 AM"
  | _ => none

/-- Concrete stand-in for luxon's parse-to-calendar-date: valid only on
the fixture timestamp and the fixture date-only string. -/
def toDateKeyFix : Option String → Option String := fun s =>
  match s with
  | some "2024-03-01T09:00:00Z" => some "2024-03-01"
  | some "2024-03-01" => some "2024-03-01"
  | _ => none

/-- Wall-event fixture: the timed raw event, normalized. -/
def wallTimed : WallEvent :=
  normalizeWall fmtFix "A" rawTimed

/-- Wall-event fixture: the all-day raw event, normalized. -/
def wallAllDay : WallEvent :=
  normalizeWall fmtFix "A" rawAllDay

/-- Wall-event fixture: the start-less raw event, normalized. -/
def wallBare : WallEvent :=
  normalizeWall fmtFix "A" rawBare


theorem leChars_total : ∀ as bs, leChars as bs = true ∨ leChars bs as = true := by
  intro as
  induction as with
  | nil => intro bs; exact Or.inl rfl
  | cons a as ih =>
    intro bs
    cases bs with
    | nil => exact Or.inr rfl
    | cons b bs =>
      rcases Nat.lt_trichotomy a.toNat b.toNat with h | h | h
      · exact Or.inl (by simp [leChars, h])
      · rcases ih bs with h' | h'
        · exact Or.inl (by simp [leChars, h, h'])
        · exact Or.inr (by simp [leChars, h, h'])
      · exact Or.inr (by simp [leChars, h])

theorem leChars_trans : ∀ as bs cs, leChars as bs = true → leChars bs cs = true →
    leChars as cs = true := by
  intro as
  induction as with
  | nil => intro bs cs _ _; rfl
  | cons a as ih =>
    intro bs cs h1 h2
    cases bs with
    | nil => simp [leChars] at h1
    | cons b bs =>
      cases cs with
      | nil => simp [leChars] at h2
      | cons c cs =>
        rcases Nat.lt_trichotomy a.toNat b.toNat with hab | hab | hab
        · have hcb : ¬ c.toNat < b.toNat := by
            intro hcb
            simp [leChars, hcb, Nat.lt_asymm hcb] at h2
          have hac : a.toNat < c.toNat := by omega
          simp [leChars, hac]
        · have h1' : leChars as bs = true := by
            simpa [leChars, hab] using h1
          rcases Nat.lt_trichotomy b.toNat c.toNat with hbc | hbc | hbc
          · have hac : a.toNat < c.toNat := by omega
            simp [leChars, hac]
          · have h2' : leChars bs cs = true := by
              simpa [leChars, hbc] using h2
            have hac : ¬ a.toNat < c.toNat := by omega
            have hca : ¬ c.toNat < a.toNat := by omega
            have := ih bs cs h1' h2'
            simp [leChars, hac, hca, this]
          · exfalso
            simp [leChars, hbc, Nat.lt_asymm hbc] at h2
        · exfalso
          simp [leChars, hab, Nat.lt_asymm hab] at h1

theorem strLe_total (a b : String) : strLe a b = true ∨ strLe b a = true :=
  leChars_total a.data b.data

theorem strLe_trans (a b c : String) (h1 : strLe a b = true) (h2 : strLe b c = true) :
    strLe a c = true :=
  leChars_trans a.data b.data c.data h1 h2

theorem strLe_empty_right (s : String) (h : strLe s "" = true) : s = "" := by
  have hd : s.data = [] := by
    cases hs : s.data with
    | nil => rfl
    | cons c cs =>
      rw [strLe, hs] at h
      have hnil : ("".data : List Char) = [] := rfl
      rw [hnil] at h
      simp [leChars] at h
  cases s with
  | mk data =>
    have : data = [] := hd
    rw [this]

theorem insertByKey_perm (key : α → String) (a : α) :
    ∀ l : List α, (insertByKey key a l).Perm (a :: l) := by
  intro l
  induction l with
  | nil => exact List.Perm.refl _
  | cons b bs ih =>
    by_cases h : strLe (key a) (key b) = true
    · simp only [insertByKey, if_pos h]
      exact List.Perm.refl _
    · simp only [insertByKey, if_neg h]
      exact (ih.cons b).trans (List.Perm.swap a b bs)

theorem insertByKey_pairwise (key : α → String) (a : α) :
    ∀ l : List α, l.Pairwise (fun x y => strLe (key x) (key y) = true) →
      (insertByKey key a l).Pairwise (fun x y => strLe (key x) (key y) = true) := by
  intro l
  induction l with
  | nil =>
    intro _
    simp [insertByKey]
  | cons b bs ih =>
    intro hp
    rcases List.pairwise_cons.mp hp with ⟨hb, hbs⟩
    by_cases h : strLe (key a) (key b) = true
    · simp only [insertByKey, if_pos h]
      refine List.pairwise_cons.mpr ⟨?_, hp⟩
      intro x hx
      rcases List.mem_cons.mp hx with rfl | hx'
      · exact h
      · exact strLe_trans _ _ _ h (hb x hx')
    · have hba : strLe (key b) (key a) = true := by
        rcases strLe_total (key a) (key b) with h' | h'
        · exact absurd h' h
        · exact h'
      simp only [insertByKey, if_neg h]
      refine List.pairwise_cons.mpr ⟨?_, ih hbs⟩
      intro x hx
      have hmem : x ∈ a :: bs := (insertByKey_perm key a bs).mem_iff.mp hx
      rcases List.mem_cons.mp hmem with rfl | hx'
      · exact hba
      · exact hb x hx'

theorem sortByKey_perm (key : α → String) :
    ∀ l : List α, (sortByKey key l).Perm l := by
  intro l
  induction l with
  | nil => exact List.Perm.refl _
  | cons a rest ih =>
    exact (insertByKey_perm key a (sortByKey key rest)).trans (ih.cons a)

theorem sortByKey_pairwise (key : α → String) :
    ∀ l : List α, (sortByKey key l).Pairwise (fun x y => strLe (key x) (key y) = true) := by
  intro l
  induction l with
  | nil => simp [sortByKey]
  | cons a rest ih => exact insertByKey_pairwise key a _ ih

theorem settledFulfilled_map_fetchTask (f : String → Except String (List RawEvent)) :
    ∀ ids : List String,
      settledFulfilled (ids.map (fetchTask f))
        = (succeededCalendars ids f).map fun c => (c, (okItems (f c)).map (normalizeEvent c)) := by
  intro ids
  induction ids with
  | nil => rfl
  | cons c cs ih =>
    cases hfc : f c with
    | error m =>
      simp only [List.map_cons, settledFulfilled, List.filterMap_cons, fetchTask, hfc,
        Except.map, succeededCalendars, List.filter_cons, isRejected, Bool.not_true,
        Bool.false_eq_true, if_false]
      simpa [settledFulfilled, succeededCalendars] using ih
    | ok items =>
      simp only [List.map_cons, settledFulfilled, List.filterMap_cons, fetchTask, hfc,
        Except.map, succeededCalendars, List.filter_cons, isRejected, Bool.not_false,
        if_true, okItems]
      simpa [settledFulfilled, succeededCalendars, okItems, hfc] using ih

theorem settledErrors_length (f : String → Except String (List RawEvent)) :
    ∀ ids : List String,
      (settledErrors (ids.map (fetchTask f))).length
        = (ids.filter fun c => isRejected (f c)).length := by
  intro ids
  induction ids with
  | nil => rfl
  | cons c cs ih =>
    cases hfc : f c with
    | error m =>
      simp only [List.map_cons, settledErrors, List.filterMap_cons, fetchTask, hfc,
        Except.map, List.filter_cons, isRejected, if_true, List.length_cons]
      simpa [settledErrors] using ih
    | ok items =>
      simp only [List.map_cons, settledErrors, List.filterMap_cons, fetchTask, hfc,
        Except.map, List.filter_cons, isRejected, Bool.false_eq_true, if_false]
      simpa [settledErrors] using ih

theorem settledErrors_map_fetchTask (f : String → Except String (List RawEvent)) :
    ∀ ids : List String,
      settledErrors (ids.map (fetchTask f))
        = ids.filterMap fun c =>
            match f c with
            | Except.error m => some (jsOrStr (some m) "unknown error")
            | Except.ok _ => none := by
  intro ids
  induction ids with
  | nil => rfl
  | cons c cs ih =>
    cases hfc : f c with
    | error m =>
      simp only [List.map_cons, settledErrors, List.filterMap_cons, fetchTask, hfc, Except.map]
      simpa [settledErrors] using ih
    | ok items =>
      simp only [List.map_cons, settledErrors, List.filterMap_cons, fetchTask, hfc, Except.map]
      simpa [settledErrors] using ih

theorem merged_events_eq (f : String → Except String (List RawEvent)) (ids : List String) :
    ((settledFulfilled (ids.map (fetchTask f))).flatMap fun x => x.2)
      = succeededEvents ids f := by
  rw [settledFulfilled_map_fetchTask, succeededEvents]
  induction succeededCalendars ids f with
  | nil => rfl
  | cons c cs ih => simp [ih]

theorem calendarsSucceeded_eq (f : String → Except String (List RawEvent)) (ids : List String) :
    ((settledFulfilled (ids.map (fetchTask f))).map fun x => x.1)
      = succeededCalendars ids f := by
  rw [settledFulfilled_map_fetchTask]
  induction succeededCalendars ids f with
  | nil => rfl
  | cons c cs ih => simp [ih]

theorem filter_bool_partition_length (p : α → Bool) :
    ∀ l : List α, (l.filter p).length + (l.filter fun a => !(p a)).length = l.length := by
  intro l
  induction l with
  | nil => rfl
  | cons a l ih =>
    cases hpa : p a <;> simp [List.filter_cons, hpa] <;> omega

theorem partitionWall_eq_filter (toDateKey : Option String → Option String)
    (todayKey : String) (htk : todayKey ≠ "") :
    ∀ es : List WallEvent,
      partitionWall toDateKey todayKey es
        = (es.filter fun e => toDateKey e.start == some todayKey,
            es.filter fun e => !(toDateKey e.start == some todayKey)) := by
  intro es
  induction es with
  | nil => rfl
  | cons e rest ih =>
    by_cases hp : (toDateKey e.start).getD "" = todayKey
    · have hps : toDateKey e.start = some todayKey := by
        cases h : toDateKey e.start with
        | none =>
          rw [h] at hp
          exact absurd hp.symm htk
        | some v =>
          rw [h] at hp
          simp only [Option.getD_some] at hp
          rw [hp]
      simp [partitionWall, hp, hps, List.filter_cons, ih]
    · have hps : ¬ toDateKey e.start = some todayKey := by
        intro h
        rw [h] at hp
        exact hp rfl
      simp [partitionWall, hp, hps, List.filter_cons, ih]

/-- C1: for every non-empty calendar id list with at least one failing
and at least one succeeding fetch, the aggregation's `events` output is
exactly the normalized events of the succeeded calendars, each
occurrence appearing exactly once (a permutation of their concatenation
— the sort only reorders; a failed calendar contributes zero events and
never suppresses a sibling's events), and `errors` has exactly one
entry per failed calendar. -/
theorem aggregate_failure_isolation
    (ids : List String) (f : String → Except String (List RawEvent))
    (hne : ids ≠ [])
    (hfail : ∃ c ∈ ids, isRejected (f c) = true)
    (hsucc : ∃ c ∈ ids, isRejected (f c) = false) :
    ((aggregate ids f).events).Perm (succeededEvents ids f)
    ∧ (aggregate ids f).errors.length
        = (ids.filter fun c => isRejected (f c)).length := by
  constructor
  · have h1 : (aggregate ids f).events
        = sortByKey sortKey
            ((settledFulfilled (ids.map (fetchTask f))).flatMap fun x => x.2) := rfl
    rw [h1, merged_events_eq]
    exact sortByKey_perm sortKey _
  · have h2 : (aggregate ids f).errors = settledErrors (ids.map (fetchTask f)) := rfl
    rw [h2, settledErrors_length]

/-- Witness for C1 at calendars `["A","B"]` where "A" rejects and "B"
fulfills with one event. -/
theorem aggregate_failure_isolation_witness :
    ((["A", "B"] : List String) ≠ []
      ∧ (∃ c ∈ ["A", "B"], isRejected (fetchAB c) = true)
      ∧ (∃ c ∈ ["A", "B"], isRejected (fetchAB c) = false))
    ∧ (((aggregate ["A", "B"] fetchAB).events).Perm (succeededEvents ["A", "B"] fetchAB)
      ∧ (aggregate ["A", "B"] fetchAB).errors.length
          = (["A", "B"].filter fun c => isRejected (fetchAB c)).length) :=
  ⟨⟨by decide, by decide, by decide⟩,
    aggregate_failure_isolation ["A", "B"] fetchAB
      (by decide) (by decide) (by decide)⟩

/-- C2: every aggregation result's `events` list is sorted ascending by
the `start` field under lexicographic string comparison: every adjacent
pair `(e1, e2)` satisfies `strLe (sortKey e1) (sortKey e2)`, where the
sort key `sortKey` treats a missing `start` as the empty string. -/
theorem aggregate_events_sorted_by_start
    (ids : List String) (f : String → Except String (List RawEvent)) :
    ((aggregate ids f).events).Chain' (fun a b => strLe (sortKey a) (sortKey b) = true) :=
  List.Pairwise.chain' (sortByKey_pairwise sortKey _)

/-- C8 counterexample: an event with an entirely absent `start` sorts
FIRST, not last. With one succeeded calendar returning a timed event
and a start-less event, the merged output places the start-less event
at position 0, before the event that has a start. -/
theorem missing_start_sorts_first_not_last :
    ((aggregate ["A"] (fun _ => Except.ok [rawTimed, rawBare])).events.map Event.start)
      = [none, some "2024-03-01T09:00:00Z"] := by
  decide

/-- C8 (amended): events with an entirely absent `start` sort first,
not last: in the merged `events` output, any event preceding an
absent-start event itself has an absent or empty `start` — no event
with a nonempty `start` value ever precedes an absent-start event,
because the absent start is compared as the empty string, the
lexicographic minimum. -/
theorem missing_start_sorts_first
    (ids : List String) (f : String → Except String (List RawEvent)) :
    ((aggregate ids f).events).Pairwise
      (fun a b => b.start = none → (a.start = none ∨ a.start = some "")) := by
  have hp := sortByKey_pairwise sortKey
    ((settledFulfilled (ids.map (fetchTask f))).flatMap fun x => x.2)
  refine List.Pairwise.imp ?_ hp
  intro a b hle hbs
  have hkb : sortKey b = "" := by simp [sortKey, jsOrStr, hbs]
  rw [hkb] at hle
  have hka : sortKey a = "" := strLe_empty_right _ hle
  cases ha : a.start with
  | none => exact Or.inl rfl
  | some s =>
    right
    have hs : s = "" := by
      by_contra hs
      have hcontr : s = "" := by simpa [sortKey, jsOrStr, ha, hs] using hka
      exact hs hcontr
    rw [hs]

/-- Witness for C8 (amended) at a concrete aggregation mixing a timed
and a start-less event. -/
theorem missing_start_sorts_first_witness :
    ((aggregate ["A"] (fun _ => Except.ok [rawBare, rawTimed])).events).Pairwise
      (fun a b => b.start = none → (a.start = none ∨ a.start = some "")) :=
  missing_start_sorts_first ["A"] (fun _ => Except.ok [rawBare, rawTimed])

/-- C9 counterexample: the code's `errors` are aligned with REQUEST
order, not completion order. With calendars `["A","B"]` both failing
and the completion schedule `[1, 0]` (task B finishes before task A),
listing failure messages in completion order yields `["errB","errA"]`,
but the aggregation returns `["errA","errB"]`. -/
theorem errors_not_in_completion_order :
    ([1, 0].Perm (List.range 2))
    ∧ (aggregate ["A", "B"] fetchBothFail).errors = ["errA", "errB"]
    ∧ errorsInCompletionOrder (["A", "B"].map (fetchTask fetchBothFail)) [1, 0]
        = ["errB", "errA"]
    ∧ (aggregate ["A", "B"] fetchBothFail).errors
        ≠ errorsInCompletionOrder (["A", "B"].map (fetchTask fetchBothFail)) [1, 0] :=
  ⟨by decide, by decide, by decide, by decide⟩

/-- C9 (amended): `calendarsRequested` equals the full input id list in
its original order, and `calendarsSucceeded` and `errors` are in
request order — the input order restricted to the succeeded resp.
failed calendars — independent of fetch completion order, because
`Promise.allSettled` aligns its result array with its input array. -/
theorem aggregate_orders_request_order
    (ids : List String) (f : String → Except String (List RawEvent)) :
    (aggregate ids f).calendarsRequested = ids
    ∧ (aggregate ids f).calendarsSucceeded = succeededCalendars ids f
    ∧ (aggregate ids f).errors
        = ids.filterMap fun c =>
            match f c with
            | Except.error m => some (jsOrStr (some m) "unknown error")
            | Except.ok _ => none :=
  ⟨rfl, calendarsSucceeded_eq f ids, settledErrors_map_fetchTask f ids⟩

/-- C4 counterexample: the "exactly when" direction fails when the
provider summary is literally the placeholder string: normalizing an
event whose summary is `"(no title)"` yields the placeholder title even
though the summary is neither absent nor empty. -/
theorem normalize_title_placeholder_not_iff :
    (normalizeEvent "A" ⟨"e9", some "(no title)", none, none, none, none⟩).title
        = "(no title)"
    ∧ ¬(((⟨"e9", some "(no title)", none, none, none, none⟩ : RawEvent).summary = none)
        ∨ ((⟨"e9", some "(no title)", none, none, none, none⟩ : RawEvent).summary
            = some "")) := by
  decide

/-- C4 (amended): normalization is total (it is a function into
`Event`; absent fields degrade to defaults, nothing throws); `title` is
the placeholder "(no title)" when the provider summary is absent or
empty and equals the summary otherwise (so the placeholder appears
exactly when the summary is absent, empty, or itself the literal
placeholder string); `location` and `description` are the empty string
when absent. -/
theorem normalize_total_defaults (cid : String) (e : RawEvent) :
    ((e.summary = none ∨ e.summary = some "") →
        (normalizeEvent cid e).title = "(no title)")
    ∧ (∀ s, e.summary = some s → s ≠ "" → (normalizeEvent cid e).title = s)
    ∧ (e.location = none → (normalizeEvent cid e).location = "")
    ∧ (e.description = none → (normalizeEvent cid e).description = "") := by
  refine ⟨?_, ?_, ?_, ?_⟩
  · rintro (h | h) <;> simp [normalizeEvent, jsOrStr, h]
  · intro s hs hne
    simp [normalizeEvent, jsOrStr, hs, hne]
  · intro h
    simp [normalizeEvent, jsOrStr, h]
  · intro h
    simp [normalizeEvent, jsOrStr, h]

/-- Witness for C4 (amended) at the field-less fixture and the titled
fixture. -/
theorem normalize_total_defaults_witness :
    (normalizeEvent "A" rawBare).title = "(no title)"
    ∧ (normalizeEvent "A" rawTimed).title = "Standup"
    ∧ (normalizeEvent "A" rawBare).location = ""
    ∧ (normalizeEvent "A" rawBare).description = "" :=
  ⟨(normalize_total_defaults "A" rawBare).1 (Or.inl rfl),
    (normalize_total_defaults "A" rawTimed).2.1 "Standup" rfl (by decide),
    (normalize_total_defaults "A" rawBare).2.2.1 rfl,
    (normalize_total_defaults "A" rawBare).2.2.2 rfl⟩

/-- C5: the normalized `allDay` flag is true iff the raw start carries
a (truthy, i.e. nonempty — JS `Boolean`) date-only field; `start` and
`end` are the `dateTime` value when that field is truthy, else the
`date` field's value (which covers "the date-only value when present,
else absent": equality with `e.start?.date` yields the date-only value
when present and absence when absent). -/
theorem normalize_allDay_start_selection (cid : String) (e : RawEvent) :
    ((normalizeEvent cid e).allDay = true
        ↔ ∃ d, e.start.bind RawTime.date = some d ∧ d ≠ "")
    ∧ (truthy (e.start.bind RawTime.dateTime) = true →
        (normalizeEvent cid e).start = e.start.bind RawTime.dateTime)
    ∧ (truthy (e.start.bind RawTime.dateTime) = false →
        (normalizeEvent cid e).start = e.start.bind RawTime.date)
    ∧ (truthy (e.«end».bind RawTime.dateTime) = true →
        (normalizeEvent cid e).«end» = e.«end».bind RawTime.dateTime)
    ∧ (truthy (e.«end».bind RawTime.dateTime) = false →
        (normalizeEvent cid e).«end» = e.«end».bind RawTime.date)
    ∧ (e.start = none → (normalizeEvent cid e).start = none) := by
  refine ⟨?_, ?_, ?_, ?_, ?_, ?_⟩
  · cases hd : e.start.bind RawTime.date with
    | none => simp [normalizeEvent, truthy, hd]
    | some d => simp [normalizeEvent, truthy, hd]
  · intro h
    simp [normalizeEvent, jsOr, h]
  · intro h
    simp [normalizeEvent, jsOr, h]
  · intro h
    simp [normalizeEvent, jsOr, h]
  · intro h
    simp [normalizeEvent, jsOr, h]
  · intro h
    simp [normalizeEvent, jsOr, truthy, h]

/-- Witness for C5 at the all-day, timed and field-less fixtures. -/
theorem normalize_allDay_start_selection_witness :
    ((normalizeEvent "A" rawAllDay).allDay = true
      ↔ ∃ d, rawAllDay.start.bind RawTime.date = some d ∧ d ≠ "")
    ∧ (normalizeEvent "A" rawTimed).start = rawTimed.start.bind RawTime.dateTime
    ∧ (normalizeEvent "A" rawAllDay).start = rawAllDay.start.bind RawTime.date
    ∧ (normalizeEvent "A" rawBare).start = none :=
  ⟨(normalize_allDay_start_selection "A" rawAllDay).1,
    (normalize_allDay_start_selection "A" rawTimed).2.1 (by decide),
    (normalize_allDay_start_selection "A" rawAllDay).2.2.1 (by decide),
    (normalize_allDay_start_selection "A" rawBare).2.2.2.2.2 rfl⟩

/-- C7 counterexample: the canonical id `calendarId ++ ":" ++ eventId`
does NOT guarantee global uniqueness across different source calendars:
calendar "a" with provider event id "b:c" and calendar "a:b" with
provider event id "c" produce the same canonical id "a:b:c". -/
theorem canonical_id_collision_across_calendars :
    ("a" : String) ≠ "a:b"
    ∧ (normalizeEvent "a" ⟨"b:c", none, none, none, none, none⟩).id
        = (normalizeEvent "a:b" ⟨"c", none, none, none, none, none⟩).id := by
  decide

/-- C7 (amended): for two events from different source calendars that
share the same provider-local id — the disambiguation case the spec
names — the canonical `id` fields differ. -/
theorem canonical_id_unique_same_local_id
    (c₁ c₂ : String) (e₁ e₂ : RawEvent)
    (hc : c₁ ≠ c₂) (hid : e₁.id = e₂.id) :
    (normalizeEvent c₁ e₁).id ≠ (normalizeEvent c₂ e₂).id := by
  intro h
  apply hc
  have h' : c₁ ++ ":" ++ e₁.id = c₂ ++ ":" ++ e₂.id := h
  rw [hid] at h'
  have hdata : (c₁ ++ ":" ++ e₂.id).data = (c₂ ++ ":" ++ e₂.id).data :=
    congrArg String.data h'
  simp only [String.data_append] at hdata
  have h2 : c₁.data ++ (":" : String).data = c₂.data ++ (":" : String).data :=
    List.append_cancel_right hdata
  have h3 : c₁.data = c₂.data := List.append_cancel_right h2
  cases c₁
  cases c₂
  exact congrArg String.mk h3

/-- Witness for C7 (amended): calendars "A" and "B" sharing the same
raw event. -/
theorem canonical_id_unique_same_local_id_witness :
    ("A" : String) ≠ "B"
    ∧ (normalizeEvent "A" rawTimed).id ≠ (normalizeEvent "B" rawTimed).id :=
  ⟨by decide,
    canonical_id_unique_same_local_id "A" "B" rawTimed rawTimed (by decide) rfl⟩

/-- C3: in the wall partition, an event lands in `today` iff its start
parses to the same calendar date (in the configured zone) as the
request time's date `todayKey` (which is nonempty, being the ISO date
of a valid instant); every other event — including any whose start
fails to parse (`toDateKey` returns `none`) — lands in `upcoming`; the
two buckets exhaust the list, so every event lands in exactly one. -/
theorem wall_partition_today_iff (toDateKey : Option String → Option String)
    (todayKey : String) (htk : todayKey ≠ "") (es : List WallEvent) :
    (partitionWall toDateKey todayKey es).1
        = es.filter (fun e => toDateKey e.start == some todayKey)
    ∧ (partitionWall toDateKey todayKey es).2
        = es.filter (fun e => !(toDateKey e.start == some todayKey))
    ∧ (partitionWall toDateKey todayKey es).1.length
        + (partitionWall toDateKey todayKey es).2.length = es.length := by
  have h := partitionWall_eq_filter toDateKey todayKey htk es
  refine ⟨?_, ?_, ?_⟩
  · rw [h]
  · rw [h]
  · rw [h]
    exact filter_bool_partition_length _ es

/-- Witness for C3 on a concrete list holding a same-day timed event
and a start-less event, with `todayKey = "2024-03-01"`. -/
theorem wall_partition_today_iff_witness :
    (("2024-03-01" : String) ≠ "")
    ∧ ((partitionWall toDateKeyFix "2024-03-01" [wallTimed, wallBare]).1
          = [wallTimed, wallBare].filter
              (fun e => toDateKeyFix e.start == some "2024-03-01")
      ∧ (partitionWall toDateKeyFix "2024-03-01" [wallTimed, wallBare]).2
          = [wallTimed, wallBare].filter
              (fun e => !(toDateKeyFix e.start == some "2024-03-01"))
      ∧ (partitionWall toDateKeyFix "2024-03-01" [wallTimed, wallBare]).1.length
          + (partitionWall toDateKeyFix "2024-03-01" [wallTimed, wallBare]).2.length
          = [wallTimed, wallBare].length) :=
  ⟨by decide,
    wall_partition_today_iff toDateKeyFix "2024-03-01" (by decide) [wallTimed, wallBare]⟩

/-- C6: the wall view's derived `displayTime` is the fixed label
"All day" when the event is all-day, the luxon-formatted localized
hour:minute string when the start parses (`fmtHM` returns a value), and
the empty string when the start fails to parse (`fmtHM` returns
`none`); `formatEventTime` is total, so computing `displayTime` never
fails. -/
theorem wall_displayTime_rule (fmtHM : Option String → Option String)
    (cid : String) (e : RawEvent) :
    ((normalizeWall fmtHM cid e).allDay = true →
        (normalizeWall fmtHM cid e).displayTime = "All day")
    ∧ (∀ t, (normalizeWall fmtHM cid e).allDay = false →
        fmtHM (normalizeWall fmtHM cid e).start = some t →
        (normalizeWall fmtHM cid e).displayTime = t)
    ∧ ((normalizeWall fmtHM cid e).allDay = false →
        fmtHM (normalizeWall fmtHM cid e).start = none →
        (normalizeWall fmtHM cid e).displayTime = "") := by
  have hdt : (normalizeWall fmtHM cid e).displayTime
      = formatEventTime fmtHM (normalizeWall fmtHM cid e).start
          (normalizeWall fmtHM cid e).allDay := rfl
  refine ⟨?_, ?_, ?_⟩
  · intro h
    rw [hdt, h]
    simp [formatEventTime]
  · intro t h ht
    rw [hdt, h]
    simp [formatEventTime, ht]
  · intro h ht
    rw [hdt, h]
    simp [formatEventTime, ht]

/-- Witness for C6 at the all-day, timed and start-less fixtures under
the concrete formatter. -/
theorem wall_displayTime_rule_witness :
    (normalizeWall fmtFix "A" rawAllDay).displayTime = "All day"
    ∧ (normalizeWall fmtFix "A" rawTimed).displayTime = "4:00 AM"
    ∧ (normalizeWall fmtFix "A" rawBare).displayTime = "" :=
  ⟨(wall_displayTime_rule fmtFix "A" rawAllDay).1 (by decide),
    (wall_displayTime_rule fmtFix "A" rawTimed).2.1 "4:00 AM" (by decide) (by decide),
    (wall_displayTime_rule fmtFix "A" rawBare).2.2 (by decide) (by decide)⟩

/-- C10: the `days` parameter is clamped only from above — 365 for the
flat endpoint, 60 for the wall endpoint — with no lower bound: any
value at most the cap (negative values included) passes through
unchanged, a negative value yields a range whose `timeMax` is strictly
earlier than `timeMin`, and the absent-parameter defaults are 30 (flat)
and 10 (wall). -/
theorem days_clamp_no_lower_bound :
    daysFlat none = 30 ∧ daysWall none = 10
    ∧ (∀ d : Int, d ≤ 365 → daysFlat (some d) = d)
    ∧ (∀ d : Int, 365 ≤ d → daysFlat (some d) = 365)
    ∧ (∀ d : Int, d ≤ 60 → daysWall (some d) = d)
    ∧ (∀ d : Int, 60 ≤ d → daysWall (some d) = 60)
    ∧ (∀ now d : Int, d < 0 →
        (timeRange now (daysFlat (some d))).2 < (timeRange now (daysFlat (some d))).1)
    ∧ (∀ now d : Int, d < 0 →
        (timeRange now (daysWall (some d))).2 < (timeRange now (daysWall (some d))).1) := by
  refine ⟨by decide, by decide, ?_, ?_, ?_, ?_, ?_, ?_⟩
  · intro d h
    simp only [daysFlat, clampDays, Option.getD_some]
    exact min_eq_left h
  · intro d h
    simp only [daysFlat, clampDays, Option.getD_some]
    exact min_eq_right h
  · intro d h
    simp only [daysWall, clampDays, Option.getD_some]
    exact min_eq_left h
  · intro d h
    simp only [daysWall, clampDays, Option.getD_some]
    exact min_eq_right h
  · intro now d h
    have hm : daysFlat (some d) = d := by
      simp only [daysFlat, clampDays, Option.getD_some]
      exact min_eq_left (by omega)
    rw [hm]
    simp only [timeRange, plusDays]
    omega
  · intro now d h
    have hm : daysWall (some d) = d := by
      simp only [daysWall, clampDays, Option.getD_some]
      exact min_eq_left (by omega)
    rw [hm]
    simp only [timeRange, plusDays]
    omega

/-- Witness for C10 at `days = -5` (passes the clamp, inverted range)
and `days = 100` on the wall endpoint (capped at 60). -/
theorem days_clamp_no_lower_bound_witness :
    daysFlat (some (-5)) = -5
    ∧ (timeRange 0 (daysFlat (some (-5)))).2 < (timeRange 0 (daysFlat (some (-5)))).1
    ∧ daysWall (some 100) = 60 :=
  ⟨days_clamp_no_lower_bound.2.2.1 (-5) (by decide),
    days_clamp_no_lower_bound.2.2.2.2.2.2.1 0 (-5) (by decide),
    days_clamp_no_lower_bound.2.2.2.2.2.1 100 (by decide)⟩
